import Mathlib

/-!
Verification of the ledger engine of the habit-tracking reward bot.

The definitions below are a shallow embedding of the data-access layer in
`src/database.py` (SQLite backend, the one imported by `bot.py` and every
handler), of the completion-toggle pipeline in `src/handlers/habits.py`, and
of the PostgreSQL variant `src/database_postgres.py` where a claim cites it.
The relational store is modelled as lists of rows; SQL `UPDATE ... WHERE`
becomes a map over the row list, `SELECT ... WHERE` a `find?`/`filter`.
Typed point balances are `Int` (SQLite INTEGER), coins are `Rat` (the bot
credits the fractional amount 0.5, and all coin amounts are multiples of
0.5, so rationals model the Python floats exactly).  The `monthly_stats`
leaderboard table and the announcement side channel are not modelled: no
property below observes them.
-/

namespace TelegaBot

/-- The five habit/point types of `POINT_TYPES` in `src/database.py`
(the sentinel `any` is kept out, matching the `CHECK` constraint on
`habits.habit_type`). -/
inductive PType
  | physical
  | arts
  | food_related
  | educational
  | other
deriving DecidableEq, Repr, Fintype

/-- A reward's `point_type`: one of the five fixed types, or the
sentinel string `any`. -/
inductive RType
  | fixed (t : PType)
  | anyType
deriving DecidableEq, Repr

/-- A calendar date, the `YYYY-MM-DD` strings stored in
`completion_date` columns. -/
structure Date where
  y : Nat
  m : Nat
  d : Nat
deriving DecidableEq, Repr

/-- Gregorian leap-year rule, as used by Python's `calendar` module. -/
def isLeap (y : Nat) : Bool :=
  y % 4 == 0 && (y % 100 != 0 || y % 400 == 0)

/-- Number of days of month `m` of year `y`; Python's
`calendar.monthrange(y, m)[1]` used at `src/database.py:1075`. -/
def daysInMonth (y m : Nat) : Nat :=
  if m = 2 then (if isLeap y then 29 else 28)
  else if m = 4 ∨ m = 6 ∨ m = 9 ∨ m = 11 then 30
  else 31

/-- Proleptic-Gregorian day number (0 = 1970-01-01), the standard
days-from-civil computation.  Differences of `toOrd` values equal the
`(completion_dt - last_date).days` computed at `src/database.py:819`. -/
def Date.toOrd (dt : Date) : Int :=
  let yy : Nat := if dt.m ≤ 2 then dt.y - 1 else dt.y
  let era : Nat := yy / 400
  let yoe : Nat := yy % 400
  let mp : Nat := if 2 < dt.m then dt.m - 3 else dt.m + 9
  let doy : Nat := (153 * mp + 2) / 5 + (dt.d - 1)
  let doe : Nat := yoe * 365 + yoe / 4 - yoe / 100 + doy
  (era : Int) * 146097 + (doe : Int) - 719468

/-- A row of the `users` table: the five typed point balances and the
coin balance (`src/database.py:39-54`). -/
structure User where
  id : Int
  group : Option Int
  physical : Int
  arts : Int
  food_related : Int
  educational : Int
  other : Int
  coins : Rat
deriving DecidableEq, Repr

/-- Read the balance column `points_{t}` of a user row. -/
def User.pts (x : User) : PType → Int
  | .physical => x.physical
  | .arts => x.arts
  | .food_related => x.food_related
  | .educational => x.educational
  | .other => x.other

/-- Write the balance column `points_{t}` of a user row. -/
def User.setPts (x : User) (t : PType) (v : Int) : User :=
  match t with
  | .physical => { x with physical := v }
  | .arts => { x with arts := v }
  | .food_related => { x with food_related := v }
  | .educational => { x with educational := v }
  | .other => { x with other := v }

/-- A row of the `habits` table (`src/database.py:57-68`). -/
structure Habit where
  id : Int
  group : Int
  htype : PType
deriving DecidableEq, Repr

/-- A row of the `rewards` table (`src/database.py:85-97`). -/
structure Reward where
  id : Int
  owner : Int
  price : Int
  rtype : RType
  active : Bool
deriving DecidableEq, Repr

/-- A row of the `habit_streaks` table (`src/database.py:130-145`);
`UNIQUE(user_id, habit_id)`.  `last` is always populated: the only
writer, `update_streak`, stores the completion date on every write. -/
structure Streak where
  user : Int
  habit : Int
  current : Int
  best : Int
  last : Date
  m7 : Bool
  m15 : Bool
  m30 : Bool
deriving DecidableEq, Repr

/-- A row of the `transactions` audit table (`src/database.py:100-113`). -/
structure Txn where
  buyer : Int
  seller : Int
  reward : Int
  points : Int
  ptype : RType
deriving DecidableEq, Repr

/-- The relational store: one list of rows per table.
`completions` holds `(user_id, habit_id, completion_date)` triples
(`UNIQUE` per triple); `medals` holds `(user_id, habit_id)` pairs
(`UNIQUE` per pair); `groupAchievements` holds
`(group_id, habit_id, year, month)` keys of `group_habit_completions`. -/
structure State where
  users : List User
  habits : List Habit
  completions : List (Int × Int × Date)
  streaks : List Streak
  medals : List (Int × Int)
  rewards : List Reward
  txns : List Txn
  groupAchievements : List (Int × Int × Nat × Nat)
deriving DecidableEq, Repr

/-- `SELECT * FROM users WHERE telegram_id = u`. -/
def getUser (s : State) (u : Int) : Option User :=
  s.users.find? (fun x => decide (x.id = u))

/-- `UPDATE users SET ... WHERE telegram_id = u`. -/
def updUser (s : State) (u : Int) (f : User → User) : State :=
  { s with users := s.users.map (fun x => if x.id = u then f x else x) }

/-- `SELECT * FROM habits WHERE id = h`. -/
def getHabit (s : State) (h : Int) : Option Habit :=
  s.habits.find? (fun x => decide (x.id = h))

/-- Whether the completion fact `(u, h, d)` is recorded. -/
def hasCompletion (s : State) (u h : Int) (d : Date) : Bool :=
  decide ((u, h, d) ∈ s.completions)

/-- `SELECT ... FROM habit_streaks WHERE user_id = u AND habit_id = h`. -/
def getStreak (s : State) (u h : Int) : Option Streak :=
  s.streaks.find? (fun r => decide (r.user = u ∧ r.habit = h))

/-- `INSERT OR REPLACE INTO habit_streaks` under `UNIQUE(user_id, habit_id)`. -/
def putStreak (s : State) (r : Streak) : State :=
  { s with streaks :=
      s.streaks.filter (fun q => decide (¬(q.user = r.user ∧ q.habit = r.habit))) ++ [r] }

/-- `get_user_points` (`src/database.py:253-272`): the five typed
balances, or all zeros when the user row is absent. -/
def get_user_points (s : State) (u : Int) : PType → Int :=
  match getUser s u with
  | some x => x.pts
  | none => fun _ => 0

/-- `has_medal_for_habit` (`src/database.py:1033-1043`). -/
def has_medal_for_habit (s : State) (u h : Int) : Bool :=
  decide ((u, h) ∈ s.medals)

/-- `get_medal_count` (`src/database.py:1024-1031`). -/
def get_medal_count (s : State) (u : Int) : Nat :=
  (s.medals.filter (fun p => decide (p.1 = u))).length

/-- `get_conversion_rate` (`src/database.py:1045-1048`): 1.5 with three
or more medals, else 2.0.  (Defined in the source but never called by
any other function of the repository.) -/
def get_conversion_rate (s : State) (u : Int) : Rat :=
  if 3 ≤ get_medal_count s u then (3 : Rat) / 2 else 2

/-- `award_medal` (`src/database.py:993-1008`): insert under
`UNIQUE(user_id, habit_id)`; the duplicate insert is caught and reported
as `false`. -/
def award_medal (s : State) (u h : Int) : Bool × State :=
  if (u, h) ∈ s.medals then (false, s)
  else (true, { s with medals := s.medals ++ [(u, h)] })

/-- `add_coins` (`src/database.py:897-916`). -/
def add_coins (s : State) (u : Int) (amount : Rat) : State :=
  updUser s u (fun x => { x with coins := x.coins + amount })

/-- `mark_habit_complete` (`src/database.py:367-409`): look up the
habit's type; insert the completion fact (the duplicate insert hits the
`UNIQUE(user_id, habit_id, completion_date)` constraint and is reported
as `false` with nothing changed); on success credit one point of the
habit's type. -/
def mark_habit_complete (s : State) (u h : Int) (d : Date) : Bool × State :=
  match getHabit s h with
  | none => (false, s)
  | some hb =>
    if hasCompletion s u h d then (false, s)
    else
      let s1 := { s with completions := s.completions ++ [(u, h, d)] }
      (true, updUser s1 u (fun x => x.setPts hb.htype (x.pts hb.htype + 1)))

/-- `unmark_habit_complete` (`src/database.py:411-450`): delete the
completion fact; if a row was deleted, debit one point of the habit's
type; otherwise report `false` with nothing changed. -/
def unmark_habit_complete (s : State) (u h : Int) (d : Date) : Bool × State :=
  match getHabit s h with
  | none => (false, s)
  | some hb =>
    if hasCompletion s u h d then
      let s1 := { s with completions :=
        s.completions.filter (fun c => decide (¬(c = (u, h, d)))) }
      (true, updUser s1 u (fun x => x.setPts hb.htype (x.pts hb.htype - 1)))
    else (false, s)

/-! ### Basic row-lookup lemmas -/

theorem find_map_upd_self (l : List User) (u : Int) (f : User → User)
    (hf : ∀ x, (f x).id = x.id) :
    (l.map (fun x => if x.id = u then f x else x)).find? (fun x => decide (x.id = u))
      = (l.find? (fun x => decide (x.id = u))).map f := by
  induction l with
  | nil => rfl
  | cons a l ih =>
    by_cases ha : a.id = u
    · simp [List.find?, ha, hf]
    · simp [List.find?, ha, ih]

theorem find_map_upd_ne (l : List User) (u v : Int) (f : User → User)
    (hf : ∀ x, (f x).id = x.id) (hne : v ≠ u) :
    (l.map (fun x => if x.id = u then f x else x)).find? (fun x => decide (x.id = v))
      = l.find? (fun x => decide (x.id = v)) := by
  induction l with
  | nil => rfl
  | cons a l ih =>
    simp only [List.map_cons]
    by_cases ha : a.id = u
    · have hv : ¬a.id = v := by
        intro hv
        exact hne (by rw [← hv, ha])
      rw [if_pos ha,
        List.find?_cons_of_neg _ (by simp [hf, hv]),
        List.find?_cons_of_neg _ (by simpa using hv)]
      exact ih
    · rw [if_neg ha]
      by_cases hv : a.id = v
      · rw [List.find?_cons_of_pos _ (by simpa using hv),
          List.find?_cons_of_pos _ (by simpa using hv)]
      · rw [List.find?_cons_of_neg _ (by simpa using hv),
          List.find?_cons_of_neg _ (by simpa using hv)]
        exact ih

theorem getUser_updUser_self (s : State) (u : Int) (f : User → User)
    (hf : ∀ x, (f x).id = x.id) :
    getUser (updUser s u f) u = (getUser s u).map f :=
  find_map_upd_self s.users u f hf

theorem getUser_updUser_ne (s : State) (u v : Int) (f : User → User)
    (hf : ∀ x, (f x).id = x.id) (hne : v ≠ u) :
    getUser (updUser s u f) v = getUser s v :=
  find_map_upd_ne s.users u v f hf hne

theorem setPts_id (x : User) (t : PType) (v : Int) : (x.setPts t v).id = x.id := by
  cases t <;> rfl

theorem setPts_coins (x : User) (t : PType) (v : Int) :
    (x.setPts t v).coins = x.coins := by
  cases t <;> rfl

theorem setPts_group (x : User) (t : PType) (v : Int) :
    (x.setPts t v).group = x.group := by
  cases t <;> rfl

theorem pts_setPts_self (x : User) (t : PType) (v : Int) :
    (x.setPts t v).pts t = v := by
  cases t <;> rfl

theorem pts_setPts_ne (x : User) (t u : PType) (v : Int) (h : u ≠ t) :
    (x.setPts t v).pts u = x.pts u := by
  cases t <;> cases u <;> first | rfl | exact absurd rfl h

theorem pts_setPts (x : User) (t u : PType) (v : Int) :
    (x.setPts t v).pts u = if u = t then v else x.pts u := by
  by_cases h : u = t
  · subst h; simp [pts_setPts_self]
  · simp [h, pts_setPts_ne x t u v h]

/-! ### C5: duplicate `mark_habit_complete` is an idempotent no-op -/

/-- Claim C5: when the completion fact for `(user, habit, date)` already
exists, `mark_habit_complete` on that same triple returns `false` and
leaves the whole store — in particular every typed point balance, the
coin balance, and the set of recorded completions — exactly unchanged. -/
theorem c5_mark_idempotent (s : State) (u h : Int) (d : Date)
    (hc : hasCompletion s u h d = true) :
    mark_habit_complete s u h d = (false, s) := by
  unfold mark_habit_complete
  cases getHabit s h with
  | none => rfl
  | some hb => simp [hc]

/-- Witness for C5 at a concrete store holding one completion. -/
theorem c5_mark_idempotent_witness :
    mark_habit_complete
      { users := [{ id := 1, group := none, physical := 3, arts := 0,
                    food_related := 0, educational := 0, other := 0, coins := 0 }],
        habits := [{ id := 10, group := 7, htype := .physical }],
        completions := [(1, 10, ⟨2024, 5, 2⟩)],
        streaks := [], medals := [], rewards := [], txns := [],
        groupAchievements := [] }
      1 10 ⟨2024, 5, 2⟩
    = (false,
      { users := [{ id := 1, group := none, physical := 3, arts := 0,
                    food_related := 0, educational := 0, other := 0, coins := 0 }],
        habits := [{ id := 10, group := 7, htype := .physical }],
        completions := [(1, 10, ⟨2024, 5, 2⟩)],
        streaks := [], medals := [], rewards := [], txns := [],
        groupAchievements := [] }) :=
  c5_mark_idempotent _ 1 10 ⟨2024, 5, 2⟩ (by decide)

/-! ### Streak calculator (`update_streak`, `src/database.py:796-874`) -/

/-- The dictionary returned by `update_streak`. -/
structure StreakInfo where
  current : Int
  best : Int
  milestone : Option Nat
deriving DecidableEq, Repr

/-- Tail of `update_streak` after the transition case split: raise
`best_streak` when overtaken, test milestones 30, then 15, then 7
(setting the announced flag of the one that fires), and store the
record with the completion date as the new `last_completion_date`. -/
def finishStreak (s : State) (u h : Int) (d : Date) (cur bestPrev : Int)
    (m7 m15 m30 : Bool) : StreakInfo × State :=
  let best := if bestPrev < cur then cur else bestPrev
  if cur = 30 ∧ m30 = false then
    (⟨cur, best, some 30⟩, putStreak s ⟨u, h, cur, best, d, m7, m15, true⟩)
  else if cur = 15 ∧ m15 = false then
    (⟨cur, best, some 15⟩, putStreak s ⟨u, h, cur, best, d, m7, true, m30⟩)
  else if cur = 7 ∧ m7 = false then
    (⟨cur, best, some 7⟩, putStreak s ⟨u, h, cur, best, d, true, m15, m30⟩)
  else
    (⟨cur, best, none⟩, putStreak s ⟨u, h, cur, best, d, m7, m15, m30⟩)

/-- `update_streak` (`src/database.py:796-874`).  With a prior record:
a day-difference of 1 continues the streak, 0 returns early with no
write at all, anything else resets the streak to 1 and clears the three
announced flags.  Without a prior record the streak starts at 1 with
clear flags and `best_streak` 0 before the max update. -/
def update_streak (s : State) (u h : Int) (d : Date) : StreakInfo × State :=
  match getStreak s u h with
  | some r =>
    if d.toOrd - r.last.toOrd = 0 then
      (⟨r.current, r.best, none⟩, s)
    else if d.toOrd - r.last.toOrd = 1 then
      finishStreak s u h d (r.current + 1) r.best r.m7 r.m15 r.m30
    else
      finishStreak s u h d 1 r.best false false false
  | none => finishStreak s u h d 1 0 false false false

/-- The empty store. -/
def emptyState : State :=
  { users := [], habits := [], completions := [], streaks := [],
    medals := [], rewards := [], txns := [], groupAchievements := [] }

/-- Run `update_streak` over a list of completion dates, collecting the
reported current streak after each day. -/
def runStreaks (s : State) (u h : Int) (days : List Date) : List Int × State :=
  days.foldl
    (fun acc d =>
      let r := update_streak acc.2 u h d
      (acc.1 ++ [r.1.current], r.2))
    ([], s)

theorem find?_filter_append_self (l : List Streak) (r : Streak) :
    ((l.filter (fun q => decide (¬(q.user = r.user ∧ q.habit = r.habit))) ++ [r]).find?
      (fun x => decide (x.user = r.user ∧ x.habit = r.habit))) = some r := by
  induction l with
  | nil => simp [List.find?]
  | cons a l ih =>
    by_cases ha : a.user = r.user ∧ a.habit = r.habit
    · rw [List.filter_cons, if_neg (by simp [ha])]
      exact ih
    · rw [List.filter_cons, if_pos (by simp only [decide_eq_true_eq]; exact ha),
        List.cons_append,
        List.find?_cons_of_neg _ (by simp only [decide_eq_true_eq]; exact ha)]
      exact ih

theorem find?_filter_append_ne (l : List Streak) (r : Streak) (u h : Int)
    (hne : ¬(r.user = u ∧ r.habit = h)) :
    ((l.filter (fun q => decide (¬(q.user = r.user ∧ q.habit = r.habit))) ++ [r]).find?
      (fun x => decide (x.user = u ∧ x.habit = h)))
      = l.find? (fun x => decide (x.user = u ∧ x.habit = h)) := by
  induction l with
  | nil => simp [List.find?, hne]
  | cons a l ih =>
    by_cases hkey : a.user = r.user ∧ a.habit = r.habit
    · have hau : ¬(a.user = u ∧ a.habit = h) := by
        rintro ⟨h1, h2⟩
        exact hne ⟨by rw [← hkey.1, h1], by rw [← hkey.2, h2]⟩
      rw [List.filter_cons, if_neg (by simp [hkey]),
        List.find?_cons_of_neg _ (by simp only [decide_eq_true_eq]; exact hau)]
      exact ih
    · rw [List.filter_cons, if_pos (by simp only [decide_eq_true_eq]; exact hkey)]
      by_cases hau : a.user = u ∧ a.habit = h
      · rw [List.cons_append,
          List.find?_cons_of_pos _ (by simp only [decide_eq_true_eq]; exact hau),
          List.find?_cons_of_pos _ (by simp only [decide_eq_true_eq]; exact hau)]
      · rw [List.cons_append, List.find?_cons_of_neg _ (by simp only [decide_eq_true_eq]; exact hau),
          List.find?_cons_of_neg _ (by simp only [decide_eq_true_eq]; exact hau)]
        exact ih

theorem getStreak_putStreak_self (s : State) (r : Streak) :
    getStreak (putStreak s r) r.user r.habit = some r :=
  find?_filter_append_self s.streaks r

theorem getStreak_putStreak_ne (s : State) (r : Streak) (u h : Int)
    (hne : ¬(r.user = u ∧ r.habit = h)) :
    getStreak (putStreak s r) u h = getStreak s u h :=
  find?_filter_append_ne s.streaks r u h hne

theorem ite_lt_eq_max (a b : Int) : (if a < b then b else a) = max a b := by
  rw [max_def]
  by_cases h1 : a < b <;> by_cases h2 : a ≤ b <;> simp [h1, h2] <;> omega

theorem finishStreak_current (s : State) (u h : Int) (d : Date)
    (cur bestPrev : Int) (m7 m15 m30 : Bool) :
    (finishStreak s u h d cur bestPrev m7 m15 m30).1.current = cur := by
  simp only [finishStreak]
  split_ifs <;> rfl

theorem finishStreak_best (s : State) (u h : Int) (d : Date)
    (cur bestPrev : Int) (m7 m15 m30 : Bool) :
    (finishStreak s u h d cur bestPrev m7 m15 m30).1.best = max bestPrev cur := by
  rw [← ite_lt_eq_max]
  simp only [finishStreak]
  split_ifs <;> rfl

/-- `finishStreak` in a reset (`current = 1`) transition: no milestone
can fire, so the record is stored with all three flags still clear. -/
theorem finishStreak_reset (s : State) (u h : Int) (d : Date) (bestPrev : Int) :
    finishStreak s u h d 1 bestPrev false false false
      = (⟨1, max bestPrev 1, none⟩,
         putStreak s ⟨u, h, 1, max bestPrev 1, d, false, false, false⟩) := by
  simp only [finishStreak]
  rw [ite_lt_eq_max]
  norm_num

/-- Claim C6: streak transition relation of `update_streak`.  Given the
stored record `r` with last completion date `L = r.last`: a completion
exactly one day after `L` increments the current streak; a completion on
day `L` itself changes nothing (no write, no milestone); any other gap
(and likewise the absence of any record) resets the current streak to 1
and clears all three milestone-announced flags while `best_streak` is
retained through the max; in every transition the new `best_streak` is
`max` of the old one and the new current streak.  Finally, completions
on days 1, 2, 3, 5, 6 of a month report current streaks 1, 2, 3, 1, 2. -/
theorem c6_streak_transitions (s : State) (u h : Int) (d : Date) :
    (∀ r, getStreak s u h = some r →
      (d.toOrd = r.last.toOrd + 1 →
        (update_streak s u h d).1.current = r.current + 1 ∧
        (update_streak s u h d).1.best = max r.best (r.current + 1)) ∧
      (d.toOrd = r.last.toOrd →
        update_streak s u h d = (⟨r.current, r.best, none⟩, s)) ∧
      (d.toOrd ≠ r.last.toOrd ∧ d.toOrd ≠ r.last.toOrd + 1 →
        update_streak s u h d
          = (⟨1, max r.best 1, none⟩,
             putStreak s ⟨u, h, 1, max r.best 1, d, false, false, false⟩) ∧
        getStreak (update_streak s u h d).2 u h
          = some ⟨u, h, 1, max r.best 1, d, false, false, false⟩)) ∧
    (getStreak s u h = none →
      update_streak s u h d
        = (⟨1, 1, none⟩, putStreak s ⟨u, h, 1, 1, d, false, false, false⟩)) ∧
    (runStreaks emptyState 1 1
        [⟨2024, 1, 1⟩, ⟨2024, 1, 2⟩, ⟨2024, 1, 3⟩, ⟨2024, 1, 5⟩, ⟨2024, 1, 6⟩]).1
      = [1, 2, 3, 1, 2] := by
  refine ⟨?_, ?_, by decide⟩
  · intro r hr
    refine ⟨?_, ?_, ?_⟩
    · intro hd
      have heq : update_streak s u h d
          = finishStreak s u h d (r.current + 1) r.best r.m7 r.m15 r.m30 := by
        simp only [update_streak, hr]
        rw [if_neg (by omega), if_pos (by omega)]
      rw [heq]
      exact ⟨finishStreak_current _ _ _ _ _ _ _ _ _,
        finishStreak_best _ _ _ _ _ _ _ _ _⟩
    · intro hd
      simp only [update_streak, hr]
      rw [if_pos (by omega)]
    · rintro ⟨hd0, hd1⟩
      have heq : update_streak s u h d
          = finishStreak s u h d 1 r.best false false false := by
        simp only [update_streak, hr]
        rw [if_neg (by omega), if_neg (by omega)]
      rw [heq, finishStreak_reset]
      refine ⟨rfl, ?_⟩
      simpa using
        getStreak_putStreak_self s ⟨u, h, 1, max r.best 1, d, false, false, false⟩
  · intro hr
    simp only [update_streak, hr]
    have h2 := finishStreak_reset s u h d 0
    rw [show (max (0 : Int) 1) = 1 from by decide] at h2
    exact h2

/-- Witness for C6: a record at streak 5 last completed 2024-01-10,
completed again on 2024-01-11, continues to 6. -/
theorem c6_streak_transitions_witness :
    (update_streak
      { emptyState with streaks :=
          [⟨1, 1, 5, 5, ⟨2024, 1, 10⟩, false, false, false⟩] }
      1 1 ⟨2024, 1, 11⟩).1.current = 5 + 1 ∧
    (update_streak
      { emptyState with streaks :=
          [⟨1, 1, 5, 5, ⟨2024, 1, 10⟩, false, false, false⟩] }
      1 1 ⟨2024, 1, 11⟩).1.best = max 5 (5 + 1) :=
  ((c6_streak_transitions
      { emptyState with streaks :=
          [⟨1, 1, 5, 5, ⟨2024, 1, 10⟩, false, false, false⟩] }
      1 1 ⟨2024, 1, 11⟩).1
    ⟨1, 1, 5, 5, ⟨2024, 1, 10⟩, false, false, false⟩ (by decide)).1 (by decide)

/-! ### Purchase settlement, conversion, deletion, group achievement -/

/-- The fixed priority order of the `any`-purchase loop
(`src/database.py:549`). -/
def typeOrder : List PType :=
  [.physical, .arts, .food_related, .educational, .other]

/-- The greedy walk of the `any` branch of `buy_reward`
(`src/database.py:547-557`): consume each type's positive balance up to
the remaining amount needed. -/
def greedyDeductions (bal : PType → Int) : Int → List PType → List (PType × Int)
  | _, [] => []
  | remaining, t :: ts =>
    if 0 < bal t ∧ 0 < remaining then
      (t, min (bal t) remaining)
        :: greedyDeductions bal (remaining - min (bal t) remaining) ts
    else greedyDeductions bal remaining ts

/-- Apply a list of per-type debits to one user
(`UPDATE users SET points_t = points_t - a` per entry). -/
def debitAll (s : State) (u : Int) (ded : List (PType × Int)) : State :=
  ded.foldl (fun st p => updUser st u (fun x => x.setPts p.1 (x.pts p.1 - p.2))) s

/-- `SELECT ... FROM rewards WHERE id = rid AND is_active = 1`. -/
def getReward (s : State) (rid : Int) : Option Reward :=
  s.rewards.find? (fun r => decide (r.id = rid ∧ r.active = true))

/-- `buy_reward` (`src/database.py:513-617`).  Fixed-type path: require
the buyer's balance of the reward's type to cover the price, debit it,
and credit the price to the seller's **coin** balance.  `any` path:
require the five balances together to cover the price, deduct greedily
in `typeOrder`, and credit the seller's coin balance.  (When the buyer
row is missing the fixed path raises on `fetchone()[0]` before any
mutation; both failure modes leave the store unchanged and yield no
success.)  A transaction row is logged on success. -/
def buy_reward (s : State) (buyer seller rid : Int) : Bool × State :=
  match getReward s rid with
  | none => (false, s)
  | some rw =>
    match rw.rtype with
    | .anyType =>
      match getUser s buyer with
      | none => (false, s)
      | some bu =>
        if bu.physical + bu.arts + bu.food_related + bu.educational + bu.other
            < rw.price then
          (false, s)
        else
          let ded := greedyDeductions bu.pts rw.price typeOrder
          let s1 := debitAll s buyer ded
          let s2 := updUser s1 seller
            (fun x => { x with coins := x.coins + (rw.price : Rat) })
          (true, { s2 with txns :=
            s2.txns ++ [⟨buyer, seller, rid, rw.price, .anyType⟩] })
    | .fixed t =>
      match getUser s buyer with
      | none => (false, s)
      | some bu =>
        if bu.pts t < rw.price then (false, s)
        else
          let s1 := updUser s buyer (fun x => x.setPts t (x.pts t - rw.price))
          let s2 := updUser s1 seller
            (fun x => { x with coins := x.coins + (rw.price : Rat) })
          (true, { s2 with txns :=
            s2.txns ++ [⟨buyer, seller, rid, rw.price, .fixed t⟩] })

/-- `buy_reward_custom` (`src/database.py:619-673`): reject when the
allocation does not sum exactly to the price, or when some allocated
amount exceeds the buyer's balance of that type (`get_user_points`);
otherwise debit each allocated type and credit the price to the
seller's coin balance.  The allocation is a Python dict, i.e. its keys
are distinct; it is embedded as an association list. -/
def buy_reward_custom (s : State) (buyer seller rid : Int)
    (alloc : List (PType × Int)) : Bool × State :=
  match getReward s rid with
  | none => (false, s)
  | some rw =>
    if (alloc.map Prod.snd).sum ≠ rw.price then (false, s)
    else if alloc.any (fun p => decide (get_user_points s buyer p.1 < p.2)) then
      (false, s)
    else
      let s1 := debitAll s buyer alloc
      let s2 := updUser s1 seller
        (fun x => { x with coins := x.coins + (rw.price : Rat) })
      (true, { s2 with txns :=
        s2.txns ++ [⟨buyer, seller, rid, rw.price, .anyType⟩] })

/-- `convert_points` (`src/database.py:691-727`): same-type conversions
and amounts that are odd or below 2 are rejected; with sufficient source
balance, debit `amount` from the source type and credit `amount // 2` to
the target type — a hard-coded 2:1 ratio.  (The `point_conversions` log
row is not modelled; no property observes it.) -/
def convert_points (s : State) (u : Int) (fromT toT : PType) (amount : Int) :
    Bool × State :=
  if fromT = toT then (false, s)
  else if amount < 2 ∨ amount % 2 ≠ 0 then (false, s)
  else
    match getUser s u with
    | none => (false, s)
    | some x =>
      if x.pts fromT < amount then (false, s)
      else
        let s1 := updUser s u (fun z => z.setPts fromT (z.pts fromT - amount))
        let s2 := updUser s1 u (fun z => z.setPts toT (z.pts toT + amount / 2))
        (true, s2)

/-- `delete_habit` (`src/database.py:328-364`): for every user with
completions of this habit, count them and subtract that count from the
user's balance of the habit's type; then purge the habit's completions
and the habit row. -/
def delete_habit (s : State) (h : Int) : Bool × State :=
  match getHabit s h with
  | none => (false, s)
  | some hb =>
    let affected :=
      ((s.completions.filter (fun c => decide (c.2.1 = h))).map (fun c => c.1)).dedup
    let s1 := affected.foldl
      (fun st uid =>
        let cnt : Int :=
          ((st.completions.filter (fun c => decide (c.1 = uid ∧ c.2.1 = h))).length : Int)
        updUser st uid (fun x => x.setPts hb.htype (x.pts hb.htype - cnt))) s
    let s2 := { s1 with completions :=
      s1.completions.filter (fun c => decide (¬(c.2.1 = h))) }
    (true, { s2 with habits := s2.habits.filter (fun q => decide (¬(q.id = h))) })

/-- `buy_reward` of the PostgreSQL variant
(`src/database_postgres.py:624-666`): no balance check at all, and the
seller (the reward's owner) is credited in the **same typed points** the
buyer spends, not in coins.  For an `any`-typed reward the UPDATE names
the non-existent column `points_any`, the exception handler rolls the
transaction back and returns `False`. -/
def pg_buy_reward (s : State) (rid buyer : Int) : Bool × State :=
  match s.rewards.find? (fun r => decide (r.id = rid)) with
  | none => (false, s)
  | some rw =>
    match rw.rtype with
    | .fixed t =>
      let s1 := updUser s buyer (fun x => x.setPts t (x.pts t - rw.price))
      let s2 := updUser s1 rw.owner (fun x => x.setPts t (x.pts t + rw.price))
      (true, s2)
    | .anyType => (false, s)

/-- `check_and_award_group_habit_completion`
(`src/database.py:1050-1116`): if the `(group, habit, month)` award
already exists, report `false` and change nothing.  Otherwise collect
the days of that month on which any group member completed the habit;
when they cover every day from 1 to the month's length, credit +10
coins to every user of the group and persist the achievement key. -/
def check_and_award_group_habit_completion (s : State) (g h : Int) (y m : Nat) :
    Bool × State :=
  if (g, h, y, m) ∈ s.groupAchievements then (false, s)
  else
    let memberIds :=
      (s.users.filter (fun x => decide (x.group = some g))).map (fun x => x.id)
    let completedDays :=
      (s.completions.filter
        (fun c => decide (c.2.1 = h ∧ c.1 ∈ memberIds ∧ c.2.2.y = y ∧ c.2.2.m = m))).map
        (fun c => c.2.2.d)
    if (List.range (daysInMonth y m)).all (fun i => decide ((i + 1) ∈ completedDays)) then
      let award := fun (x : User) =>
        if x.group = some g then { x with coins := x.coins + 10 } else x
      let s1 := { s with users := s.users.map award }
      (true, { s1 with groupAchievements := s1.groupAchievements ++ [(g, h, y, m)] })
    else (false, s)

/-- The medal award of `src/handlers/habits.py:115-124`: when the
streak update reports exactly 30 and no medal exists for this habit
yet, `award_medal` runs. -/
def medalStep (r : StreakInfo × State) (u h : Int) : State :=
  if r.1.current = 30 ∧ has_medal_for_habit r.2 u h = false
  then (award_medal r.2 u h).2 else r.2

/-- The 0.5-coin credit of `src/handlers/habits.py:133-139`, applied
when the user holds a medal for this habit. -/
def coinStep (s : State) (u h : Int) : State :=
  if has_medal_for_habit s u h = true then add_coins s u ((1 : Rat) / 2) else s

/-- The mark branch of `toggle_habit` (`src/handlers/habits.py:98-139`):
`mark_habit_complete` (return value ignored), then `update_streak`, then
the medal award, then the medal-conditional 0.5-coin credit.  The
subsequent group-achievement check (line 152) is modelled separately by
`check_and_award_group_habit_completion`, and the announcement sends
have no ledger effect. -/
def completeHabit (s : State) (u h : Int) (d : Date) : State :=
  coinStep (medalStep (update_streak (mark_habit_complete s u h d).2 u h d) u h) u h

/-- The typed point balance `t` of user `u`, read off the store
(0 when the user row is absent). -/
def ptsOf (s : State) (u : Int) (t : PType) : Int :=
  (getUser s u).elim 0 (fun x => x.pts t)

/-- The coin balance of user `u` (0 when the user row is absent). -/
def coinsOf (s : State) (u : Int) : Rat :=
  (getUser s u).elim 0 (fun x => x.coins)

/-! ### Concrete stores used to evaluate the operations -/

/-- A one-user, one-habit store: user 1 in group 7 with all balances
zero, habit 10 of type `physical` in group 7, medal set `ms`. -/
def medalPayoutState (ms : List (Int × Int)) : State :=
  { users := [⟨1, some 7, 0, 0, 0, 0, 0, 0⟩],
    habits := [⟨10, 7, .physical⟩],
    completions := [], streaks := [], medals := ms, rewards := [],
    txns := [], groupAchievements := [] }

/-- A two-user shop store: buyer 1 (all balances zero), owner 2 (all
balances zero), one active physical-type reward 5 priced 7 owned by 2. -/
def pgShopState : State :=
  { users := [⟨1, none, 0, 0, 0, 0, 0, 0⟩, ⟨2, none, 0, 0, 0, 0, 0, 0⟩],
    habits := [], completions := [], streaks := [],
    medals := [], rewards := [⟨5, 2, 7, .fixed .physical, true⟩],
    txns := [], groupAchievements := [] }

/-- A store with user 1 holding 6 physical points and medals `ms`. -/
def convState (ms : List (Int × Int)) : State :=
  { users := [⟨1, none, 6, 0, 0, 0, 0, 0⟩],
    habits := [], completions := [], streaks := [], medals := ms,
    rewards := [], txns := [], groupAchievements := [] }

/-- A store with buyer 1 (30 physical points), seller 2, and one active
`any`-type reward 5 priced 20 owned by 2. -/
def negAllocState : State :=
  { users := [⟨1, none, 30, 0, 0, 0, 0, 0⟩, ⟨2, none, 0, 0, 0, 0, 0, 0⟩],
    habits := [], completions := [], streaks := [],
    medals := [], rewards := [⟨5, 2, 20, .anyType, true⟩],
    txns := [], groupAchievements := [] }

/-! ### C1: medal payout switch -/

/-- Claim C1 evaluated on the code.  A user who already holds a medal
for habit 10 and marks it complete through the handler pipeline ends
with **1 typed point and 0.5 coins** credited — the typed point is
credited unconditionally by `mark_habit_complete`
(`src/database.py:392`) and the handler then adds the 0.5 coins on top
(`src/handlers/habits.py:134-136`), instead of crediting the 0.5 coins
*in place of* the point.  Without a medal the same mark credits 1 point
and 0 coins, as the claim says. -/
theorem c1_medal_payout_eval :
    ptsOf (completeHabit (medalPayoutState [(1, 10)]) 1 10 ⟨2024, 5, 2⟩) 1 .physical
        = 1 ∧
    coinsOf (completeHabit (medalPayoutState [(1, 10)]) 1 10 ⟨2024, 5, 2⟩) 1
        = 1 / 2 ∧
    ptsOf (completeHabit (medalPayoutState []) 1 10 ⟨2024, 5, 2⟩) 1 .physical = 1 ∧
    coinsOf (completeHabit (medalPayoutState []) 1 10 ⟨2024, 5, 2⟩) 1 = 0 := by
  norm_num [completeHabit, medalStep, coinStep, mark_habit_complete,
    update_streak, finishStreak, putStreak, getStreak, getHabit, getUser,
    hasCompletion, has_medal_for_habit, award_medal, add_coins, updUser,
    medalPayoutState, ptsOf, coinsOf, Date.toOrd, List.find?, List.filter,
    User.setPts, User.pts, Option.elim]

/-! ### C2: fixed-type purchase settlement -/

/-- Claim C2 evaluated on the code.  In the PostgreSQL variant
(`src/database_postgres.py:624-666`) a fixed-type purchase by a buyer
whose balance (0) is below the price (7) **succeeds**: the buyer's
typed balance is driven to −7 and the seller is credited +7 in the same
typed points, with coins untouched.  The SQLite implementation
(`src/database.py:584-594`) rejects the same purchase and leaves the
store unchanged, as the claim requires. -/
theorem c2_fixed_purchase_eval :
    (pg_buy_reward pgShopState 5 1).1 = true ∧
    ptsOf (pg_buy_reward pgShopState 5 1).2 1 .physical = -7 ∧
    ptsOf (pg_buy_reward pgShopState 5 1).2 2 .physical = 7 ∧
    coinsOf (pg_buy_reward pgShopState 5 1).2 2 = 0 ∧
    buy_reward pgShopState 1 2 5 = (false, pgShopState) := by
  norm_num [pg_buy_reward, buy_reward, getReward, greedyDeductions, debitAll,
    pgShopState, updUser, getUser, ptsOf, coinsOf, User.setPts, User.pts,
    List.find?, Option.elim]

/-! ### C3: medal-dependent conversion rate -/

/-- Claim C3 evaluated on the code.  `get_conversion_rate` does return
1.5 for a user with three medals (and 2.0 below three), but
`convert_points` never consults it: a user with three medals converting
6 physical points receives `6 // 2 = 3` target points, not
`floor(6 / 1.5) = 4`; and converting 3 units — the spec's own example
of the 1.5 rate — is rejected outright by the even-amount guard
(`src/database.py:696-697`). -/
theorem c3_conversion_rate_eval :
    get_conversion_rate (convState [(1, 101), (1, 102), (1, 103)]) 1 = 3 / 2 ∧
    get_conversion_rate (convState [(1, 101), (1, 102)]) 1 = 2 ∧
    (convert_points (convState [(1, 101), (1, 102), (1, 103)]) 1
        .physical .arts 6).1 = true ∧
    ptsOf (convert_points (convState [(1, 101), (1, 102), (1, 103)]) 1
        .physical .arts 6).2 1 .arts = 3 ∧
    convert_points (convState [(1, 101), (1, 102), (1, 103)]) 1 .physical .arts 3
        = (false, convState [(1, 101), (1, 102), (1, 103)]) := by
  refine ⟨?_, ?_, by decide, by decide, by decide⟩ <;>
    norm_num [get_conversion_rate, get_medal_count, convState, List.filter]

/-! ### C10: negative amounts in a buyer-specified allocation -/

/-- Claim C10: `buy_reward_custom` accepts an allocation containing a
negative amount.  With buyer balance 30 physical / 0 arts and price 20,
the allocation `physical: 30, arts: -10` sums to the price, every
amount is at most the corresponding balance, and the purchase succeeds:
the buyer's arts balance **increases** from 0 to 10, physical drops to
0, and the seller is still credited the full 20 coins. -/
theorem c10_negative_allocation :
    (buy_reward_custom negAllocState 1 2 5 [(.physical, 30), (.arts, -10)]).1
        = true ∧
    ptsOf (buy_reward_custom negAllocState 1 2 5
        [(.physical, 30), (.arts, -10)]).2 1 .arts = 10 ∧
    ptsOf (buy_reward_custom negAllocState 1 2 5
        [(.physical, 30), (.arts, -10)]).2 1 .physical = 0 ∧
    coinsOf (buy_reward_custom negAllocState 1 2 5
        [(.physical, 30), (.arts, -10)]).2 2 = 20 := by
  norm_num [buy_reward_custom, getReward, get_user_points, debitAll,
    negAllocState, updUser, getUser, ptsOf, coinsOf, User.setPts, User.pts,
    List.find?, List.any, List.foldl, List.map, List.sum, Option.elim]

/-! ### C4: mark/unmark symmetry -/

/-- Counterexample to claim C4: for a user holding a medal for the
habit, marking and then unmarking the same (user, habit, date) does
**not** restore the coin balance — the 0.5-coin medal payout of the
mark is never reversed by `unmark_habit_complete`, which only debits
the typed point. -/
theorem c4_mark_unmark_counterexample :
    coinsOf
      (unmark_habit_complete
        (completeHabit (medalPayoutState [(1, 10)]) 1 10 ⟨2024, 5, 2⟩)
        1 10 ⟨2024, 5, 2⟩).2 1 = 1 / 2 ∧
    coinsOf (medalPayoutState [(1, 10)]) 1 = 0 := by
  norm_num [completeHabit, medalStep, coinStep, mark_habit_complete,
    unmark_habit_complete, update_streak, finishStreak, putStreak, getStreak,
    getHabit, getUser, hasCompletion, has_medal_for_habit, award_medal,
    add_coins, updUser, medalPayoutState, ptsOf, coinsOf, Date.toOrd,
    List.find?, List.filter, User.setPts, User.pts, Option.elim]

/-! ### Table-preservation and decomposition lemmas -/

theorem getUser_congr (s s2 : State) (u : Int) (hx : s2.users = s.users) :
    getUser s2 u = getUser s u := by
  unfold getUser; rw [hx]

theorem getHabit_congr (s s2 : State) (h : Int) (hx : s2.habits = s.habits) :
    getHabit s2 h = getHabit s h := by
  unfold getHabit; rw [hx]

theorem getStreak_congr (s s2 : State) (u h : Int) (hx : s2.streaks = s.streaks) :
    getStreak s2 u h = getStreak s u h := by
  unfold getStreak; rw [hx]

theorem has_medal_congr (s s2 : State) (u h : Int) (hx : s2.medals = s.medals) :
    has_medal_for_habit s2 u h = has_medal_for_habit s u h := by
  unfold has_medal_for_habit; rw [hx]

theorem User.pts_coins_update (x : User) (c : Rat) (t : PType) :
    ({ x with coins := c } : User).pts t = x.pts t := by
  cases t <;> rfl

theorem finishStreak_tables (s : State) (u h : Int) (d : Date)
    (cur bp : Int) (m7 m15 m30 : Bool) :
    (finishStreak s u h d cur bp m7 m15 m30).2.users = s.users ∧
    (finishStreak s u h d cur bp m7 m15 m30).2.completions = s.completions ∧
    (finishStreak s u h d cur bp m7 m15 m30).2.medals = s.medals ∧
    (finishStreak s u h d cur bp m7 m15 m30).2.habits = s.habits := by
  unfold finishStreak
  split_ifs <;> exact ⟨rfl, rfl, rfl, rfl⟩

theorem update_streak_tables (s : State) (u h : Int) (d : Date) :
    (update_streak s u h d).2.users = s.users ∧
    (update_streak s u h d).2.completions = s.completions ∧
    (update_streak s u h d).2.medals = s.medals ∧
    (update_streak s u h d).2.habits = s.habits := by
  unfold update_streak
  cases getStreak s u h with
  | none => exact finishStreak_tables _ _ _ _ _ _ _ _ _
  | some r =>
    dsimp only
    split_ifs with h0 h1
    · exact ⟨rfl, rfl, rfl, rfl⟩
    · exact finishStreak_tables _ _ _ _ _ _ _ _ _
    · exact finishStreak_tables _ _ _ _ _ _ _ _ _

theorem award_medal_tables (s : State) (u h : Int) :
    (award_medal s u h).2.users = s.users ∧
    (award_medal s u h).2.completions = s.completions ∧
    (award_medal s u h).2.streaks = s.streaks ∧
    (award_medal s u h).2.habits = s.habits := by
  unfold award_medal
  split_ifs <;> exact ⟨rfl, rfl, rfl, rfl⟩

theorem medalStep_tables (r : StreakInfo × State) (u h : Int) :
    (medalStep r u h).users = r.2.users ∧
    (medalStep r u h).completions = r.2.completions ∧
    (medalStep r u h).streaks = r.2.streaks ∧
    (medalStep r u h).habits = r.2.habits := by
  unfold medalStep
  split_ifs
  · exact award_medal_tables _ _ _
  · exact ⟨rfl, rfl, rfl, rfl⟩

theorem coinStep_tables (s : State) (u h : Int) :
    (coinStep s u h).completions = s.completions ∧
    (coinStep s u h).streaks = s.streaks ∧
    (coinStep s u h).medals = s.medals ∧
    (coinStep s u h).habits = s.habits := by
  unfold coinStep
  split_ifs <;> exact ⟨rfl, rfl, rfl, rfl⟩

theorem mark_habit_complete_eq (s : State) (u h : Int) (d : Date) (hb : Habit)
    (hh : getHabit s h = some hb) (hc : hasCompletion s u h d = false) :
    mark_habit_complete s u h d
      = (true, updUser { s with completions := s.completions ++ [(u, h, d)] } u
          (fun x => x.setPts hb.htype (x.pts hb.htype + 1))) := by
  unfold mark_habit_complete
  rw [hh]
  simp [hc]

theorem unmark_habit_complete_eq (s : State) (u h : Int) (d : Date) (hb : Habit)
    (hh : getHabit s h = some hb) (hc : hasCompletion s u h d = true) :
    unmark_habit_complete s u h d
      = (true, updUser
          { s with completions :=
              s.completions.filter (fun c => decide (¬(c = (u, h, d)))) } u
          (fun x => x.setPts hb.htype (x.pts hb.htype - 1))) := by
  unfold unmark_habit_complete
  rw [hh]
  simp [hc]

theorem finishStreak_getStreak (s : State) (u h : Int) (d : Date)
    (cur bp : Int) (m7 m15 m30 : Bool) :
    ∃ rec, getStreak (finishStreak s u h d cur bp m7 m15 m30).2 u h = some rec ∧
      rec.best = (if bp < cur then cur else bp) := by
  unfold finishStreak
  split_ifs <;>
    exact ⟨_, by simpa using getStreak_putStreak_self s _, rfl⟩

theorem update_streak_best_mono (s : State) (u h : Int) (d : Date) (r r2 : Streak)
    (h1 : getStreak s u h = some r)
    (h2 : getStreak (update_streak s u h d).2 u h = some r2) :
    r.best ≤ r2.best := by
  by_cases hd0 : d.toOrd - r.last.toOrd = 0
  · have he : (update_streak s u h d).2 = s := by
      unfold update_streak; rw [h1]; simp [hd0]
    rw [he, h1] at h2
    obtain rfl := Option.some.inj h2
    exact le_refl _
  · by_cases hd1 : d.toOrd - r.last.toOrd = 1
    · have he : (update_streak s u h d).2
          = (finishStreak s u h d (r.current + 1) r.best r.m7 r.m15 r.m30).2 := by
        unfold update_streak; rw [h1]; simp [hd0, hd1]
      obtain ⟨rec, hrec, hbest⟩ :=
        finishStreak_getStreak s u h d (r.current + 1) r.best r.m7 r.m15 r.m30
      rw [he, hrec] at h2
      obtain rfl := Option.some.inj h2
      rw [hbest]
      split_ifs <;> omega
    · have he : (update_streak s u h d).2
          = (finishStreak s u h d 1 r.best false false false).2 := by
        unfold update_streak; rw [h1]; simp [hd0, hd1]
      obtain ⟨rec, hrec, hbest⟩ :=
        finishStreak_getStreak s u h d 1 r.best false false false
      rw [he, hrec] at h2
      obtain rfl := Option.some.inj h2
      rw [hbest]
      split_ifs <;> omega

/-- Observable effect of the mark pipeline on the acting user: the
habit-type balance gains one point, coins gain 0.5 exactly when a medal
for the habit is held afterwards, the completion fact is appended, and
the habit table is untouched. -/
theorem completeHabit_obs (s : State) (u h : Int) (d : Date) (hb : Habit) (x0 : User)
    (hh : getHabit s h = some hb) (hc : hasCompletion s u h d = false)
    (hu : getUser s u = some x0) :
    ∃ xM,
      getUser (completeHabit s u h d) u = some xM ∧
      (∀ t, xM.pts t = if t = hb.htype then x0.pts t + 1 else x0.pts t) ∧
      xM.coins = x0.coins
        + (if has_medal_for_habit (completeHabit s u h d) u h = true
           then (1 : Rat) / 2 else 0) ∧
      (completeHabit s u h d).completions = s.completions ++ [(u, h, d)] ∧
      (completeHabit s u h d).habits = s.habits ∧
      (completeHabit s u h d).streaks
        = (update_streak (mark_habit_complete s u h d).2 u h d).2.streaks := by
  have hmark := mark_habit_complete_eq s u h d hb hh hc
  have hs1eq : (mark_habit_complete s u h d).2
      = updUser { s with completions := s.completions ++ [(u, h, d)] } u
          (fun x => x.setPts hb.htype (x.pts hb.htype + 1)) := by
    rw [hmark]
  have hM : completeHabit s u h d
      = coinStep (medalStep (update_streak (mark_habit_complete s u h d).2 u h d) u h)
          u h := rfl
  have hrrT := update_streak_tables (mark_habit_complete s u h d).2 u h d
  have hmsT :=
    medalStep_tables (update_streak (mark_habit_complete s u h d).2 u h d) u h
  have hcsT :=
    coinStep_tables
      (medalStep (update_streak (mark_habit_complete s u h d).2 u h d) u h) u h
  have hgU1 : getUser (mark_habit_complete s u h d).2 u
      = some (x0.setPts hb.htype (x0.pts hb.htype + 1)) := by
    rw [hs1eq,
      getUser_updUser_self _ u _ (fun x => setPts_id x _ _)]
    have hCu : getUser { s with completions := s.completions ++ [(u, h, d)] } u
        = getUser s u := rfl
    rw [hCu, hu]
    rfl
  have hs2users :
      (medalStep (update_streak (mark_habit_complete s u h d).2 u h d) u h).users
        = (mark_habit_complete s u h d).2.users := hmsT.1.trans hrrT.1
  have hgU2 : getUser
      (medalStep (update_streak (mark_habit_complete s u h d).2 u h d) u h) u
      = some (x0.setPts hb.htype (x0.pts hb.htype + 1)) :=
    (getUser_congr _ _ u hs2users).trans hgU1
  have hmedF : has_medal_for_habit (completeHabit s u h d) u h
      = has_medal_for_habit
          (medalStep (update_streak (mark_habit_complete s u h d).2 u h d) u h) u h := by
    rw [hM]
    exact has_medal_congr _ _ u h hcsT.2.2.1
  have hcompl : (completeHabit s u h d).completions = s.completions ++ [(u, h, d)] := by
    rw [hM]
    refine hcsT.1.trans (hmsT.2.1.trans (hrrT.2.1.trans ?_))
    rw [hs1eq]
    rfl
  have hhab : (completeHabit s u h d).habits = s.habits := by
    rw [hM]
    refine hcsT.2.2.2.trans (hmsT.2.2.2.trans (hrrT.2.2.2.trans ?_))
    rw [hs1eq]
    rfl
  have hstr : (completeHabit s u h d).streaks
      = (update_streak (mark_habit_complete s u h d).2 u h d).2.streaks := by
    rw [hM]
    exact hcsT.2.1.trans hmsT.2.2.1
  by_cases hmed : has_medal_for_habit
      (medalStep (update_streak (mark_habit_complete s u h d).2 u h d) u h) u h = true
  · refine ⟨{ x0.setPts hb.htype (x0.pts hb.htype + 1) with
        coins := (x0.setPts hb.htype (x0.pts hb.htype + 1)).coins + 1 / 2 },
      ?_, ?_, ?_, hcompl, hhab, hstr⟩
    · rw [hM]
      unfold coinStep
      rw [if_pos hmed]
      unfold add_coins
      rw [getUser_updUser_self _ u
        (fun x => { x with coins := x.coins + (1 : Rat) / 2 }) (fun x => rfl), hgU2]
      rfl
    · intro t
      rw [User.pts_coins_update, pts_setPts]
      by_cases htt : t = hb.htype
      · subst htt; simp
      · simp [htt]
    · rw [hmedF, if_pos hmed]
      show (x0.setPts hb.htype (x0.pts hb.htype + 1)).coins + 1 / 2 = _
      rw [setPts_coins]
  · refine ⟨x0.setPts hb.htype (x0.pts hb.htype + 1), ?_, ?_, ?_, hcompl, hhab, hstr⟩
    · rw [hM]
      unfold coinStep
      rw [if_neg hmed]
      exact hgU2
    · intro t
      rw [pts_setPts]
      by_cases htt : t = hb.htype
      · subst htt; simp
      · simp [htt]
    · rw [hmedF, if_neg hmed, setPts_coins]
      exact (add_zero x0.coins).symm

/-- Claim C4 (amended): marking a habit complete through the handler
pipeline and then unmarking the same (user, habit, date) restores every
typed point balance to its pre-mark value; the coin balance is restored
exactly when the user holds no medal for the habit — with a medal it
ends 0.5 above its pre-mark value, because `unmark_habit_complete`
reverses only the typed point and never the 0.5-coin medal payout —
and `best_streak` is not reversed: it never decreases across the
mark/unmark pair. -/
theorem c4_mark_unmark_amended (s : State) (u h : Int) (d : Date)
    (hb : Habit) (x0 : User)
    (hh : getHabit s h = some hb) (hc : hasCompletion s u h d = false)
    (hu : getUser s u = some x0) :
    (∀ t, ptsOf (unmark_habit_complete (completeHabit s u h d) u h d).2 u t
        = ptsOf s u t) ∧
    coinsOf (unmark_habit_complete (completeHabit s u h d) u h d).2 u
      = coinsOf s u
        + (if has_medal_for_habit
              (unmark_habit_complete (completeHabit s u h d) u h d).2 u h = true
           then (1 : Rat) / 2 else 0) ∧
    (∀ r r2, getStreak s u h = some r →
      getStreak (unmark_habit_complete (completeHabit s u h d) u h d).2 u h
        = some r2 →
      r.best ≤ r2.best) := by
  obtain ⟨xM, hgM, hMpts, hMcoins, hMcompl, hMhab, hMstr⟩ :=
    completeHabit_obs s u h d hb x0 hh hc hu
  have hMhh : getHabit (completeHabit s u h d) h = some hb :=
    (getHabit_congr s _ h hMhab).trans hh
  have hMhc : hasCompletion (completeHabit s u h d) u h d = true := by
    unfold hasCompletion
    rw [hMcompl]
    simp
  have hunm := unmark_habit_complete_eq (completeHabit s u h d) u h d hb hMhh hMhc
  have hUeq : (unmark_habit_complete (completeHabit s u h d) u h d).2
      = updUser
          { completeHabit s u h d with completions := (completeHabit s u h d).completions.filter (fun c => decide (¬(c = (u, h, d)))) } u
          (fun x => x.setPts hb.htype (x.pts hb.htype - 1)) := by
    rw [hunm]
  have hgF : getUser (unmark_habit_complete (completeHabit s u h d) u h d).2 u
      = some ((xM).setPts hb.htype (xM.pts hb.htype - 1)) := by
    rw [hUeq, getUser_updUser_self _ u _ (fun x => setPts_id x _ _)]
    have hsame : getUser
        { completeHabit s u h d with completions := (completeHabit s u h d).completions.filter (fun c => decide (¬(c = (u, h, d)))) } u
        = getUser (completeHabit s u h d) u := rfl
    rw [hsame, hgM]
    rfl
  have hmedU : has_medal_for_habit
      (unmark_habit_complete (completeHabit s u h d) u h d).2 u h
      = has_medal_for_habit (completeHabit s u h d) u h := by
    rw [hUeq]
    exact has_medal_congr _ _ u h rfl
  refine ⟨?_, ?_, ?_⟩
  · intro t
    unfold ptsOf
    rw [hgF, hu]
    show (xM.setPts hb.htype (xM.pts hb.htype - 1)).pts t = x0.pts t
    rw [pts_setPts]
    by_cases htt : t = hb.htype
    · subst htt
      rw [if_pos rfl, hMpts, if_pos rfl]
      omega
    · rw [if_neg htt, hMpts, if_neg htt]
  · unfold coinsOf
    rw [hgF, hu]
    show (xM.setPts hb.htype (xM.pts hb.htype - 1)).coins
        = x0.coins + _
    rw [setPts_coins, hMcoins, hmedU]
  · intro r r2 hr hr2
    have hstrU : (unmark_habit_complete (completeHabit s u h d) u h d).2.streaks
        = (update_streak (mark_habit_complete s u h d).2 u h d).2.streaks := by
      rw [hUeq]
      exact hMstr
    have hr2' : getStreak (update_streak (mark_habit_complete s u h d).2 u h d).2 u h
        = some r2 :=
      (getStreak_congr _ _ u h hstrU).symm.trans hr2
    have hr1 : getStreak (mark_habit_complete s u h d).2 u h = some r := by
      have hm := mark_habit_complete_eq s u h d hb hh hc
      have : (mark_habit_complete s u h d).2.streaks = s.streaks := by
        rw [hm]
        rfl
      exact (getStreak_congr s _ u h this).trans hr
    exact update_streak_best_mono _ u h d r r2 hr1 hr2'

/-- Witness for the amended C4 at the medal-holder store: the physical
balance returns to 0 while the coin balance ends at 0 + 0.5. -/
theorem c4_mark_unmark_amended_witness :
    ptsOf (unmark_habit_complete
        (completeHabit (medalPayoutState [(1, 10)]) 1 10 ⟨2024, 5, 2⟩)
        1 10 ⟨2024, 5, 2⟩).2 1 .physical
      = ptsOf (medalPayoutState [(1, 10)]) 1 .physical ∧
    coinsOf (unmark_habit_complete
        (completeHabit (medalPayoutState [(1, 10)]) 1 10 ⟨2024, 5, 2⟩)
        1 10 ⟨2024, 5, 2⟩).2 1
      = coinsOf (medalPayoutState [(1, 10)]) 1
        + (if has_medal_for_habit
              (unmark_habit_complete
                (completeHabit (medalPayoutState [(1, 10)]) 1 10 ⟨2024, 5, 2⟩)
                1 10 ⟨2024, 5, 2⟩).2 1 10 = true
           then (1 : Rat) / 2 else 0) :=
  ⟨(c4_mark_unmark_amended (medalPayoutState [(1, 10)]) 1 10 ⟨2024, 5, 2⟩
      ⟨10, 7, .physical⟩ ⟨1, some 7, 0, 0, 0, 0, 0, 0⟩
      (by decide) (by decide) (by decide)).1 .physical,
   (c4_mark_unmark_amended (medalPayoutState [(1, 10)]) 1 10 ⟨2024, 5, 2⟩
      ⟨10, 7, .physical⟩ ⟨1, some 7, 0, 0, 0, 0, 0, 0⟩
      (by decide) (by decide) (by decide)).2.1⟩

/-! ### Allocation-debit fold lemmas -/

theorem getUser_debitAll (s : State) (u : Int) (ded : List (PType × Int)) (x : User)
    (hu : getUser s u = some x) :
    getUser (debitAll s u ded) u
      = some (ded.foldl (fun z p => z.setPts p.1 (z.pts p.1 - p.2)) x) := by
  induction ded generalizing s x with
  | nil => simpa [debitAll] using hu
  | cons p ded ih =>
    have h1 : getUser (updUser s u (fun z => z.setPts p.1 (z.pts p.1 - p.2))) u
        = some (x.setPts p.1 (x.pts p.1 - p.2)) := by
      rw [getUser_updUser_self _ _ _ (fun z => setPts_id z _ _), hu]
      rfl
    exact ih _ _ h1

theorem getUser_debitAll_ne (s : State) (u v : Int) (ded : List (PType × Int))
    (hv : v ≠ u) :
    getUser (debitAll s u ded) v = getUser s v := by
  induction ded generalizing s with
  | nil => rfl
  | cons p ded ih =>
    exact (ih _).trans
      (getUser_updUser_ne s u v _ (fun z => setPts_id z _ _) hv)

theorem pts_foldl_debit (ded : List (PType × Int)) (x : User) (t : PType) :
    (ded.foldl (fun z p => z.setPts p.1 (z.pts p.1 - p.2)) x).pts t
      = x.pts t - ((ded.filter (fun p => decide (p.1 = t))).map Prod.snd).sum := by
  induction ded generalizing x with
  | nil => simp
  | cons p ded ih =>
    rw [List.foldl_cons, ih]
    by_cases hp : p.1 = t
    · rw [List.filter_cons, if_pos (by simp only [decide_eq_true_eq]; exact hp), hp,
        pts_setPts_self]
      simp only [List.map_cons, List.sum_cons]
      omega
    · rw [List.filter_cons, if_neg (by simp [hp]),
        pts_setPts_ne x p.1 t (x.pts p.1 - p.2) (fun ht => hp ht.symm)]

theorem coins_foldl_debit (ded : List (PType × Int)) (x : User) :
    (ded.foldl (fun z p => z.setPts p.1 (z.pts p.1 - p.2)) x).coins = x.coins := by
  induction ded generalizing x with
  | nil => rfl
  | cons p ded ih => rw [List.foldl_cons, ih, setPts_coins]

theorem getUser_txns (s : State) (l : List Txn) (v : Int) :
    getUser { s with txns := l } v = getUser s v := rfl

theorem getUser_addCoins_self (s : State) (u : Int) (c : Rat) (x : User)
    (hu : getUser s u = some x) :
    getUser (updUser s u (fun z => { z with coins := z.coins + c })) u
      = some { x with coins := x.coins + c } := by
  rw [getUser_updUser_self s u (fun z => { z with coins := z.coins + c })
    (fun z => rfl), hu]
  rfl

theorem getUser_addCoins_ne (s : State) (u v : Int) (c : Rat) (hv : v ≠ u) :
    getUser (updUser s u (fun z => { z with coins := z.coins + c })) v
      = getUser s v :=
  getUser_updUser_ne s u v (fun z => { z with coins := z.coins + c })
    (fun z => rfl) hv

/-! ### C7: buyer-specified allocation settlement -/

/-- Claim C7: a flexible purchase with a buyer-specified allocation.
If the allocation's amounts do not sum exactly to the reward's price,
or some allocated amount exceeds the buyer's balance of that type, the
purchase fails with the whole store unchanged.  When the sum is exact
and every amount is covered, the purchase succeeds, the buyer's balance
of each type drops by exactly the total allocated to that type (types
absent from the allocation are untouched: their filtered sum is 0), and
the seller's coin balance rises by exactly the price. -/
theorem c7_custom_allocation (s : State) (buyer seller rid : Int)
    (alloc : List (PType × Int)) (rw0 : Reward) (bu se : User)
    (hr : getReward s rid = some rw0) (hbu : getUser s buyer = some bu)
    (hse : getUser s seller = some se) :
    ((alloc.map Prod.snd).sum ≠ rw0.price →
      buy_reward_custom s buyer seller rid alloc = (false, s)) ∧
    ((∃ p ∈ alloc, get_user_points s buyer p.1 < p.2) →
      buy_reward_custom s buyer seller rid alloc = (false, s)) ∧
    ((alloc.map Prod.snd).sum = rw0.price →
      (∀ p ∈ alloc, p.2 ≤ get_user_points s buyer p.1) →
      (buy_reward_custom s buyer seller rid alloc).1 = true ∧
      (∀ t, ptsOf (buy_reward_custom s buyer seller rid alloc).2 buyer t
          = ptsOf s buyer t
            - ((alloc.filter (fun p => decide (p.1 = t))).map Prod.snd).sum) ∧
      coinsOf (buy_reward_custom s buyer seller rid alloc).2 seller
        = coinsOf s seller + rw0.price) := by
  refine ⟨?_, ?_, ?_⟩
  · intro hsum
    simp only [buy_reward_custom, hr]
    rw [if_pos hsum]
  · intro hex
    simp only [buy_reward_custom, hr]
    by_cases hsum : (alloc.map Prod.snd).sum ≠ rw0.price
    · rw [if_pos hsum]
    · rw [if_neg hsum, if_pos]
      obtain ⟨p, hp, hlt⟩ := hex
      exact List.any_eq_true.mpr ⟨p, hp, by simpa using hlt⟩
  · intro hsum hcov
    have hany : alloc.any (fun p => decide (get_user_points s buyer p.1 < p.2))
        = false := by
      rw [List.any_eq_false]
      intro p hp
      simpa using not_lt.mpr (hcov p hp)
    have hres : buy_reward_custom s buyer seller rid alloc
        = (true,
          { updUser (debitAll s buyer alloc) seller (fun x => { x with coins := x.coins + (rw0.price : Rat) }) with
            txns := (updUser (debitAll s buyer alloc) seller (fun x => { x with coins := x.coins + (rw0.price : Rat) })).txns ++ [⟨buyer, seller, rid, rw0.price, .anyType⟩] }) := by
      simp only [buy_reward_custom, hr]
      rw [if_neg (by simpa using hsum), if_neg (by simp [hany])]
    have hres1 : (buy_reward_custom s buyer seller rid alloc).1 = true := by
      rw [hres]
    have hres2 : (buy_reward_custom s buyer seller rid alloc).2
        = { updUser (debitAll s buyer alloc) seller (fun x => { x with coins := x.coins + (rw0.price : Rat) }) with
            txns := (updUser (debitAll s buyer alloc) seller (fun x => { x with coins := x.coins + (rw0.price : Rat) })).txns ++ [⟨buyer, seller, rid, rw0.price, .anyType⟩] } := by
      rw [hres]
    have hdeb := getUser_debitAll s buyer alloc bu hbu
    refine ⟨hres1, ?_, ?_⟩
    · intro t
      unfold ptsOf
      rw [hres2, getUser_txns, hbu]
      by_cases hbs : buyer = seller
      · rw [← hbs, getUser_addCoins_self _ _ _ _ hdeb]
        simp only [Option.elim]
        rw [User.pts_coins_update, pts_foldl_debit]
      · rw [getUser_addCoins_ne _ _ _ _ hbs, hdeb]
        simp only [Option.elim]
        rw [pts_foldl_debit]
    · unfold coinsOf
      rw [hres2, getUser_txns, hse]
      by_cases hbs : seller = buyer
      · subst hbs
        have hbe : bu = se := Option.some.inj (hbu.symm.trans hse)
        rw [getUser_addCoins_self _ _ _ _ hdeb]
        simp only [Option.elim]
        rw [coins_foldl_debit, hbe]
      · have hdse : getUser (debitAll s buyer alloc) seller = some se := by
          rw [getUser_debitAll_ne s buyer seller alloc hbs]
          exact hse
        rw [getUser_addCoins_self _ _ _ _ hdse]
        simp only [Option.elim]

/-- Witness for C7: an exact allocation of 20 physical against price 20
succeeds on the concrete store. -/
theorem c7_custom_allocation_witness :
    (buy_reward_custom negAllocState 1 2 5 [(.physical, 20)]).1 = true :=
  ((c7_custom_allocation negAllocState 1 2 5 [(.physical, 20)]
      ⟨5, 2, 20, .anyType, true⟩
      ⟨1, none, 30, 0, 0, 0, 0, 0⟩ ⟨2, none, 0, 0, 0, 0, 0, 0⟩
      (by decide) (by decide) (by decide)).2.2
    (by decide) (by decide)).1

/-! ### C8: non-negativity of balances -/

/-- All five typed balances and the coin balance of a user row are
non-negative. -/
def UserNonneg (x : User) : Prop :=
  (∀ t, 0 ≤ x.pts t) ∧ 0 ≤ x.coins

/-- Every user row of the store has non-negative balances. -/
def BalancesNonneg (s : State) : Prop :=
  ∀ x ∈ s.users, UserNonneg x

/-- Every reward of the store has a non-negative price (the data model
declares prices positive). -/
def PricesNonneg (s : State) : Prop :=
  ∀ r ∈ s.rewards, 0 ≤ r.price

/-- The `telegram_id` primary key: user ids are pairwise distinct. -/
def UsersNodup (s : State) : Prop :=
  (s.users.map User.id).Nodup

theorem balances_updUser_all (s : State) (u : Int) (f : User → User)
    (hnn : BalancesNonneg s) (hf : ∀ z, UserNonneg z → UserNonneg (f z)) :
    BalancesNonneg (updUser s u f) := by
  intro y hy
  obtain ⟨z, hz, rfl⟩ := List.mem_map.mp hy
  by_cases hzid : z.id = u
  · rw [if_pos hzid]
    exact hf z (hnn z hz)
  · rw [if_neg hzid]
    exact hnn z hz

theorem nodup_id_unique (s : State) (u : Int) (x z : User)
    (hnd : UsersNodup s) (hu : getUser s u = some x)
    (hz : z ∈ s.users) (hzid : z.id = u) :
    z = x := by
  have hxmem : x ∈ s.users := List.mem_of_find?_eq_some hu
  have hxid : x.id = u := by
    have := List.find?_some hu
    simpa using this
  exact List.inj_on_of_nodup_map hnd hz hxmem (by rw [hzid, hxid])

theorem balances_updUser_row (s : State) (u : Int) (f : User → User) (x : User)
    (hnd : UsersNodup s) (hu : getUser s u = some x)
    (hnn : BalancesNonneg s) (hfx : UserNonneg (f x)) :
    BalancesNonneg (updUser s u f) := by
  intro y hy
  obtain ⟨z, hz, rfl⟩ := List.mem_map.mp hy
  by_cases hzid : z.id = u
  · rw [if_pos hzid, nodup_id_unique s u x z hnd hu hz hzid]
    exact hfx
  · rw [if_neg hzid]
    exact hnn z hz

theorem debitAll_users (s : State) (u : Int) (ded : List (PType × Int)) :
    (debitAll s u ded).users
      = s.users.map (fun z => if z.id = u
          then ded.foldl (fun w p => w.setPts p.1 (w.pts p.1 - p.2)) z else z) := by
  induction ded generalizing s with
  | nil =>
    show s.users = _
    simp
  | cons p ded ih =>
    show (debitAll (updUser s u (fun z => z.setPts p.1 (z.pts p.1 - p.2))) u ded).users = _
    rw [ih, updUser, List.map_map]
    refine List.map_congr_left (fun z _ => ?_)
    by_cases hzid : z.id = u <;> simp [Function.comp, hzid, setPts_id]

theorem sumFor_le (ded : List (PType × Int)) (x : User) (t : PType)
    (hkeys : (ded.map Prod.fst).Nodup)
    (hamt : ∀ p ∈ ded, p.2 ≤ x.pts p.1) (hx : 0 ≤ x.pts t) :
    ((ded.filter (fun p => decide (p.1 = t))).map Prod.snd).sum ≤ x.pts t := by
  induction ded with
  | nil => simpa using hx
  | cons p ded ih =>
    rw [List.map_cons, List.nodup_cons] at hkeys
    by_cases hp : p.1 = t
    · have hrest : ded.filter (fun p => decide (p.1 = t)) = [] := by
        rw [List.filter_eq_nil_iff]
        intro q hq
        simp only [decide_eq_true_eq]
        intro hq1
        exact hkeys.1 (by rw [hp, ← hq1]; exact List.mem_map.mpr ⟨q, hq, rfl⟩)
      rw [List.filter_cons, if_pos (by simp [hp]), hrest]
      simpa [← hp] using hamt p (List.mem_cons_self p ded)
    · rw [List.filter_cons, if_neg (by simp [hp])]
      exact ih hkeys.2 (fun q hq => hamt q (List.mem_cons_of_mem p hq))

theorem UserNonneg_foldl_debit (ded : List (PType × Int)) (x : User)
    (hkeys : (ded.map Prod.fst).Nodup)
    (hamt : ∀ p ∈ ded, p.2 ≤ x.pts p.1) (hx : UserNonneg x) :
    UserNonneg (ded.foldl (fun w p => w.setPts p.1 (w.pts p.1 - p.2)) x) := by
  constructor
  · intro t
    rw [pts_foldl_debit]
    have := sumFor_le ded x t hkeys hamt (hx.1 t)
    omega
  · rw [coins_foldl_debit]
    exact hx.2

theorem balances_debitAll (s : State) (u : Int) (ded : List (PType × Int)) (x : User)
    (hnd : UsersNodup s) (hu : getUser s u = some x) (hnn : BalancesNonneg s)
    (hkeys : (ded.map Prod.fst).Nodup) (hamt : ∀ p ∈ ded, p.2 ≤ x.pts p.1) :
    BalancesNonneg (debitAll s u ded) := by
  intro y hy
  rw [debitAll_users] at hy
  obtain ⟨z, hz, rfl⟩ := List.mem_map.mp hy
  by_cases hzid : z.id = u
  · rw [if_pos hzid, nodup_id_unique s u x z hnd hu hz hzid]
    exact UserNonneg_foldl_debit ded x hkeys hamt (hnn x (List.mem_of_find?_eq_some hu))
  · rw [if_neg hzid]
    exact hnn z hz

theorem UserNonneg_addCoins (z : User) (c : Rat) (hz : UserNonneg z) (hc : 0 ≤ c) :
    UserNonneg { z with coins := z.coins + c } := by
  refine ⟨fun t => ?_, by have := hz.2; positivity⟩
  rw [User.pts_coins_update]
  exact hz.1 t

theorem UserNonneg_setPts (x : User) (t : PType) (v : Int)
    (hx : UserNonneg x) (hv : 0 ≤ v) : UserNonneg (x.setPts t v) := by
  refine ⟨fun t2 => ?_, by rw [setPts_coins]; exact hx.2⟩
  rw [pts_setPts]
  by_cases ht2 : t2 = t
  · rw [if_pos ht2]; exact hv
  · rw [if_neg ht2]; exact hx.1 t2

theorem greedy_amounts (bal : PType → Int) (r : Int) (ts : List PType) :
    ∀ p ∈ greedyDeductions bal r ts, p.2 ≤ bal p.1 := by
  induction ts generalizing r with
  | nil => intro p hp; cases hp
  | cons t ts ih =>
    intro p hp
    unfold greedyDeductions at hp
    split_ifs at hp with hcond
    · rcases List.mem_cons.mp hp with h | h
      · subst h
        exact min_le_left _ _
      · exact ih _ p h
    · exact ih _ p hp

theorem greedy_keys_sublist (bal : PType → Int) (r : Int) (ts : List PType) :
    ((greedyDeductions bal r ts).map Prod.fst).Sublist ts := by
  induction ts generalizing r with
  | nil => simp [greedyDeductions]
  | cons t ts ih =>
    unfold greedyDeductions
    split_ifs with hcond
    · exact List.Sublist.cons₂ t (ih _)
    · exact List.Sublist.cons t (ih _)

theorem greedy_keys_nodup (bal : PType → Int) (r : Int) :
    ((greedyDeductions bal r typeOrder).map Prod.fst).Nodup :=
  (greedy_keys_sublist bal r typeOrder).nodup (by decide)

/-- A store for exercising the spend-then-unmark sequence: two users
with zero balances, one physical habit, and a reward of price 1. -/
def negBalanceState : State :=
  { users := [⟨1, none, 0, 0, 0, 0, 0, 0⟩, ⟨2, none, 0, 0, 0, 0, 0, 0⟩],
    habits := [⟨10, 7, .physical⟩],
    completions := [], streaks := [],
    medals := [], rewards := [⟨5, 2, 1, .fixed .physical, true⟩],
    txns := [], groupAchievements := [] }

/-- Counterexample to claim C8: mark a completion (+1 physical), spend
the point on a reward (back to 0), then unmark the completion — the
user's physical balance ends at −1.  `unmark_habit_complete` debits
unconditionally, so balances are **not** kept non-negative by every
ledger operation. -/
theorem c8_nonneg_counterexample :
    ptsOf (unmark_habit_complete
        (buy_reward (mark_habit_complete negBalanceState 1 10 ⟨2024, 5, 2⟩).2 1 2 5).2
        1 10 ⟨2024, 5, 2⟩).2 1 .physical = -1 := by
  norm_num [negBalanceState, mark_habit_complete, unmark_habit_complete,
    buy_reward, getReward, getHabit, getUser, hasCompletion, updUser, ptsOf,
    User.setPts, User.pts, List.find?, List.filter, Option.elim]

/-- Claim C8 (amended): the operations that guard their debits — marking
a completion, buying a reward on either path, buying with a custom
allocation, and converting points — keep every user's five typed
balances and coin balance non-negative (given distinct user ids,
non-negative reward prices, and a duplicate-free allocation).
Unmarking a completion and deleting a habit are **not** covered: they
debit unconditionally and can drive a typed balance negative (see the
counterexample). -/
theorem c8_balances_nonneg_amended (s : State) (u h buyer seller rid u2 : Int)
    (d : Date) (alloc : List (PType × Int)) (fromT toT : PType) (amount : Int)
    (bu x2 : User)
    (hnd : UsersNodup s) (hnn : BalancesNonneg s) (hpr : PricesNonneg s)
    (hal : (alloc.map Prod.fst).Nodup)
    (hbu : getUser s buyer = some bu) (hcu : getUser s u2 = some x2) :
    BalancesNonneg (mark_habit_complete s u h d).2 ∧
    BalancesNonneg (buy_reward s buyer seller rid).2 ∧
    BalancesNonneg (buy_reward_custom s buyer seller rid alloc).2 ∧
    BalancesNonneg (convert_points s u2 fromT toT amount).2 := by
  refine ⟨?_, ?_, ?_, ?_⟩
  · unfold mark_habit_complete
    cases hgh : getHabit s h with
    | none => exact hnn
    | some hb =>
      dsimp only
      by_cases hcc : hasCompletion s u h d = true
      · rw [if_pos hcc]
        exact hnn
      · rw [if_neg hcc]
        exact balances_updUser_all _ u _ hnn
          (fun z hz => UserNonneg_setPts z hb.htype _ hz
            (by have := hz.1 hb.htype; omega))
  · unfold buy_reward
    cases hgr : getReward s rid with
    | none => exact hnn
    | some rw0 =>
      have hp : 0 ≤ rw0.price :=
        hpr rw0 (List.mem_of_find?_eq_some hgr)
      have hpq : (0 : Rat) ≤ (rw0.price : Rat) := by exact_mod_cast hp
      dsimp only
      cases hrt : rw0.rtype with
      | anyType =>
        rw [hbu]
        dsimp only
        by_cases htot : bu.physical + bu.arts + bu.food_related + bu.educational
            + bu.other < rw0.price
        · rw [if_pos htot]
          exact hnn
        · rw [if_neg htot]
          have h1 : BalancesNonneg
              (debitAll s buyer (greedyDeductions bu.pts rw0.price typeOrder)) :=
            balances_debitAll s buyer _ bu hnd hbu hnn
              (greedy_keys_nodup _ _) (fun p hp2 => greedy_amounts _ _ _ p hp2)
          exact balances_updUser_all _ seller _ h1
            (fun z hz => UserNonneg_addCoins z _ hz hpq)
      | fixed t =>
        rw [hbu]
        dsimp only
        by_cases hlt : bu.pts t < rw0.price
        · rw [if_pos hlt]
          exact hnn
        · rw [if_neg hlt]
          have h1 : BalancesNonneg
              (updUser s buyer (fun x => x.setPts t (x.pts t - rw0.price))) :=
            balances_updUser_row s buyer _ bu hnd hbu hnn
              (UserNonneg_setPts bu t _
                (hnn bu (List.mem_of_find?_eq_some hbu)) (by omega))
          exact balances_updUser_all _ seller _ h1
            (fun z hz => UserNonneg_addCoins z _ hz hpq)
  · unfold buy_reward_custom
    cases hgr : getReward s rid with
    | none => exact hnn
    | some rw0 =>
      have hp : 0 ≤ rw0.price :=
        hpr rw0 (List.mem_of_find?_eq_some hgr)
      have hpq : (0 : Rat) ≤ (rw0.price : Rat) := by exact_mod_cast hp
      dsimp only
      by_cases hsum : (alloc.map Prod.snd).sum ≠ rw0.price
      · rw [if_pos hsum]
        exact hnn
      · rw [if_neg hsum]
        by_cases hany : alloc.any
            (fun p => decide (get_user_points s buyer p.1 < p.2)) = true
        · rw [if_pos hany]
          exact hnn
        · rw [if_neg hany]
          have hpts : get_user_points s buyer = bu.pts := by
            unfold get_user_points
            rw [hbu]
          have hamt : ∀ p ∈ alloc, p.2 ≤ bu.pts p.1 := by
            intro p hp2
            have := List.any_eq_false.mp (Bool.not_eq_true _ ▸ hany) p hp2
            rw [hpts] at this
            simpa using this
          have h1 : BalancesNonneg (debitAll s buyer alloc) :=
            balances_debitAll s buyer alloc bu hnd hbu hnn hal hamt
          exact balances_updUser_all _ seller _ h1
            (fun z hz => UserNonneg_addCoins z _ hz hpq)
  · unfold convert_points
    by_cases h1 : fromT = toT
    · rw [if_pos h1]
      exact hnn
    · rw [if_neg h1]
      by_cases h2 : amount < 2 ∨ amount % 2 ≠ 0
      · rw [if_pos h2]
        exact hnn
      · rw [if_neg h2]
        rw [hcu]
        dsimp only
        by_cases h3 : x2.pts fromT < amount
        · rw [if_pos h3]
          exact hnn
        · rw [if_neg h3]
          push_neg at h2
          have hAm : 2 ≤ amount := by omega
          have hfrom : BalancesNonneg
              (updUser s u2 (fun z => z.setPts fromT (z.pts fromT - amount))) :=
            balances_updUser_row s u2 _ x2 hnd hcu hnn
              (UserNonneg_setPts x2 fromT _
                (hnn x2 (List.mem_of_find?_eq_some hcu)) (by omega))
          exact balances_updUser_all _ u2 _ hfrom
            (fun z hz => UserNonneg_setPts z toT _ hz
              (by have := hz.1 toT; omega))

/-- Witness for the amended C8: the four operations run on the concrete
shop store keep all balances non-negative. -/
theorem c8_balances_nonneg_amended_witness :
    BalancesNonneg (mark_habit_complete pgShopState 1 10 ⟨2024, 5, 2⟩).2 ∧
    BalancesNonneg (buy_reward pgShopState 1 2 5).2 ∧
    BalancesNonneg (buy_reward_custom pgShopState 1 2 5 [(.physical, 7)]).2 ∧
    BalancesNonneg (convert_points pgShopState 1 .physical .arts 2).2 :=
  c8_balances_nonneg_amended pgShopState 1 10 1 2 5 1 ⟨2024, 5, 2⟩
    [(.physical, 7)] .physical .arts 2
    ⟨1, none, 0, 0, 0, 0, 0, 0⟩ ⟨1, none, 0, 0, 0, 0, 0, 0⟩
    (by unfold UsersNodup; decide)
    (by unfold BalancesNonneg UserNonneg; decide)
    (by unfold PricesNonneg; decide)
    (by decide) (by decide) (by decide)

/-! ### C9: monthly group achievement -/

theorem find?_map_id_pres (l : List User) (gf : User → User)
    (hg : ∀ x, (gf x).id = x.id) (v : Int) :
    (l.map gf).find? (fun x => decide (x.id = v))
      = (l.find? (fun x => decide (x.id = v))).map gf := by
  induction l with
  | nil => rfl
  | cons a l ih =>
    by_cases ha : a.id = v
    · rw [List.map_cons, List.find?_cons_of_pos _ (by simp [hg, ha]),
        List.find?_cons_of_pos _ (by simp [ha])]
      rfl
    · rw [List.map_cons, List.find?_cons_of_neg _ (by simp [hg, ha]),
        List.find?_cons_of_neg _ (by simp [ha])]
      exact ih

/-- Claim C9: the (group, habit, month) achievement.  With the record
already present the check reports `false` and changes nothing.  With no
record yet, if every day 1..(length of the month) was completed for the
habit by some member of the group, the check reports `true`, credits
exactly +10 coins to every user of the group (typed balances and
non-members untouched), persists the achievement key — and a second run
on the resulting store reports `false` and changes nothing, so the
bonus fires at most once per (group, habit, month). -/
theorem c9_group_achievement (s : State) (g h : Int) (y m : Nat) :
    ((g, h, y, m) ∈ s.groupAchievements →
      check_and_award_group_habit_completion s g h y m = (false, s)) ∧
    ((g, h, y, m) ∉ s.groupAchievements →
      (∀ dd, 1 ≤ dd → dd ≤ daysInMonth y m →
        ∃ x, x ∈ s.users ∧ x.group = some g ∧ (x.id, h, ⟨y, m, dd⟩) ∈ s.completions) →
      (check_and_award_group_habit_completion s g h y m).1 = true ∧
      (∀ v x, getUser s v = some x →
        ∃ x2, getUser (check_and_award_group_habit_completion s g h y m).2 v
            = some x2 ∧
          x2.coins = x.coins + (if x.group = some g then 10 else 0) ∧
          (∀ t, x2.pts t = x.pts t)) ∧
      (g, h, y, m) ∈ (check_and_award_group_habit_completion s g h y m).2.groupAchievements ∧
      check_and_award_group_habit_completion
          (check_and_award_group_habit_completion s g h y m).2 g h y m
        = (false, (check_and_award_group_habit_completion s g h y m).2)) := by
  have hfalse : ∀ s2 : State, (g, h, y, m) ∈ s2.groupAchievements →
      check_and_award_group_habit_completion s2 g h y m = (false, s2) := by
    intro s2 hmem
    unfold check_and_award_group_habit_completion
    rw [if_pos hmem]
  refine ⟨hfalse s, ?_⟩
  intro hmem hcov
  have hall : ((List.range (daysInMonth y m)).all (fun i =>
      decide ((i + 1) ∈ ((s.completions.filter
        (fun c => decide (c.2.1 = h
          ∧ c.1 ∈ ((s.users.filter (fun x => decide (x.group = some g))).map (fun x => x.id))
          ∧ c.2.2.y = y ∧ c.2.2.m = m))).map (fun c => c.2.2.d))))) = true := by
    rw [List.all_eq_true]
    intro i hi
    rw [List.mem_range] at hi
    obtain ⟨x, hxmem, hxg, hxc⟩ := hcov (i + 1) (by omega) (by omega)
    rw [decide_eq_true_eq]
    refine List.mem_map.mpr ⟨(x.id, h, ⟨y, m, i + 1⟩), ?_, rfl⟩
    rw [List.mem_filter]
    refine ⟨hxc, ?_⟩
    rw [decide_eq_true_eq]
    refine ⟨rfl, ?_, rfl, rfl⟩
    exact List.mem_map.mpr ⟨x, List.mem_filter.mpr ⟨hxmem, by simp [hxg]⟩, rfl⟩
  have hres : check_and_award_group_habit_completion s g h y m
      = (true,
        { { s with users := s.users.map (fun (x : User) =>
              if x.group = some g then { x with coins := x.coins + 10 } else x) } with
          groupAchievements := s.groupAchievements ++ [(g, h, y, m)] }) := by
    unfold check_and_award_group_habit_completion
    rw [if_neg hmem, if_pos hall]
  refine ⟨by rw [hres], ?_, ?_, ?_⟩
  · intro v x hv
    have hget : getUser (check_and_award_group_habit_completion s g h y m).2 v
        = some ((fun (z : User) => if z.group = some g
            then { z with coins := z.coins + 10 } else z) x) := by
      rw [hres]
      show (s.users.map _).find? _ = _
      rw [find?_map_id_pres s.users _
        (fun z => by by_cases hz : z.group = some g <;> simp [hz]) v]
      rw [show s.users.find? (fun z => decide (z.id = v)) = some x from hv]
      rfl
    by_cases hxg : x.group = some g
    · refine ⟨{ x with coins := x.coins + 10 }, ?_, ?_, ?_⟩
      · rw [hget]
        simp [hxg]
      · rw [if_pos hxg]
      · intro t
        exact User.pts_coins_update x _ t
    · refine ⟨x, ?_, ?_, fun t => rfl⟩
      · rw [hget]
        simp [hxg]
      · rw [if_neg hxg]
        exact (add_zero x.coins).symm
  · rw [hres]
    show (g, h, y, m) ∈ s.groupAchievements ++ [(g, h, y, m)]
    simp
  · refine hfalse _ ?_
    rw [hres]
    show (g, h, y, m) ∈ s.groupAchievements ++ [(g, h, y, m)]
    simp

/-- A two-member group (users 1 and 2 in group 7) whose members jointly
completed habit 10 on all 28 days of February 2023, alternating. -/
def c9State : State :=
  { users := [⟨1, some 7, 0, 0, 0, 0, 0, 0⟩, ⟨2, some 7, 0, 0, 0, 0, 0, 0⟩],
    habits := [⟨10, 7, .physical⟩],
    completions := (List.range 28).map
      (fun i => ((if i % 2 = 0 then (1 : Int) else 2), 10, ⟨2023, 2, i + 1⟩)),
    streaks := [], medals := [], rewards := [], txns := [],
    groupAchievements := [] }

/-- Witness for C9: the fully-covered 28-day February triggers the
award on the concrete store. -/
theorem c9_group_achievement_witness :
    (check_and_award_group_habit_completion c9State 7 10 2023 2).1 = true :=
  ((c9_group_achievement c9State 7 10 2023 2).2 (by decide)
    (by
      intro dd h1 h2
      have h28 : daysInMonth 2023 2 = 28 := by decide
      rw [h28] at h2
      interval_cases dd <;> decide)).1

end TelegaBot
